import Mathlib

/-!
Shallow embedding of the EvoAgent capability pipeline
(src/core/executor.py, src/core/integrator.py, src/core/memory.py).

Python dicts holding JSON-like data are modelled by `PyVal`; a missing
dict key is modelled by `Option` fields (`none` = key absent).  External
effects (the child process spawned by `Executor._run`, `compile()` used
by `_syntax_check`, `hashlib.md5`, `str()` of a dict, and the wall
clock) are modelled as oracle parameters collected in `World`: the
embedded functions describe exactly how the Python code combines those
observations, which is where all the claims live.
-/

/-- JSON-like Python value (the payloads that flow through the pipeline).
`PyVal.none` is Python `None` / JSON `null`. -/
inductive PyVal where
  | none : PyVal
  | bool : Bool → PyVal
  | int : Int → PyVal
  | str : String → PyVal
  | list : List PyVal → PyVal
  | dict : List (String × PyVal) → PyVal

/-- Python `v is None`. -/
def PyVal.isNone : PyVal → Bool
  | .none => true
  | _ => false

/-- Python `isinstance(v, dict)`. -/
def PyVal.isDict : PyVal → Bool
  | .dict _ => true
  | _ => false

/-- Entries of a dict value (empty for non-dicts; only used after `isDict`). -/
def PyVal.dictEntries : PyVal → List (String × PyVal)
  | .dict l => l
  | _ => []

/-- Python `d.get(k, default)` on a dict's entry list. -/
def dictGet (l : List (String × PyVal)) (k : String) (default : PyVal) : PyVal :=
  match l.lookup k with
  | some v => v
  | Option.none => default

/-- Python `==` between an arbitrary value and a `bool`
(`True == 1` and `False == 0` hold in Python; every other cross-type
comparison with a bool is `False`). -/
def pyEqBool : PyVal → Bool → Bool
  | .bool b, c => b == c
  | .int n, c => n == (if c then 1 else 0)
  | _, _ => false

/-- One test case of a tool dict: `{input, expect_success, label}`,
each key optional (`tc.get` supplies the defaults at use sites). -/
structure TestCase where
  input : List (String × PyVal)
  expect_success : Option Bool
  label : Option String

/-- A tool dict as used by executor/integrator/memory.  `Option` fields
model possibly-absent keys; `tool.get("code", "")` style defaults are
applied at the use sites, as in the source. -/
structure Tool where
  name : Option String
  description : String
  code : String
  func_name : String
  test_cases : List TestCase
  updated_at : Option String

/-- The envelope printed by the runner script built in
`Executor._build_runner`: one JSON object line `{ok, output, error}`
(`error` absent on the success line). -/
structure Envelope where
  ok : Bool
  output : PyVal
  error : Option String

/-- Observable behaviour of one child process run in `Executor._run`
(everything outside the Python code under verification): the child
completed with captured (stripped) stdout/stderr, the JSON parse of the
stdout per the wire contract (`some` iff `json.loads` succeeds), the
measured wall-clock `elapsed`; or `subprocess.run` raised
`TimeoutExpired`; or it raised some other exception with message
`msg`. -/
inductive ProcBehavior where
  | completed : Option Envelope → String → String → ℚ → ProcBehavior
  | timedOut : ℚ → ProcBehavior
  | exn : String → ℚ → ProcBehavior

/-- Execution-result dict `{ok, output, error, elapsed}`.
`elapsed = none` models a dict with no `"elapsed"` key. -/
structure ExecResult where
  ok : Bool
  output : PyVal
  error : Option String
  elapsed : Option ℚ

/-- Executor configuration (`self.timeout`, seconds). -/
structure ExecCfg where
  timeout : Nat

/-- External oracles: `compile()` used by `_syntax_check` (flag and
exception text), the behaviour of the i-th child process spawned while
testing a tool, `hashlib.md5(...).hexdigest()`, and Python `str()` of a
tool dict. -/
structure World where
  syn : String → Bool × Option String
  engine : Nat → ProcBehavior
  md5hex : String → String
  reprTool : Tool → String

/-- Embedding of `Executor._run` after the subprocess interaction:
folds the observed child behaviour into the result dict exactly as the
source's branches do. -/
def Executor.runScript (cfg : ExecCfg) (b : ProcBehavior) : ExecResult :=
  match b with
  | .completed parsed stdout stderr elapsed =>
      if stdout ≠ "" then
        match parsed with
        | some data =>
            { ok := data.ok, output := data.output, error := data.error,
              elapsed := some elapsed }
        | Option.none =>
            { ok := true, output := .str stdout, error := Option.none,
              elapsed := some elapsed }
      else
        { ok := false, output := .none,
          error := some (if stderr ≠ "" then stderr else "no output"),
          elapsed := some elapsed }
  | .timedOut elapsed =>
      { ok := false, output := .none,
        error := some ("timed out after " ++ toString cfg.timeout ++ "s"),
        elapsed := some elapsed }
  | .exn msg elapsed =>
      { ok := false, output := .none, error := some msg, elapsed := some elapsed }

/-- Embedding of `Executor.run_code`: builds the runner (whose effect is
the oracle-supplied behaviour `b`) and runs it. -/
def Executor.run_code (cfg : ExecCfg) (code func_name : String)
    (b : ProcBehavior) : ExecResult :=
  let _ := code
  let _ := func_name
  Executor.runScript cfg b

/-- Embedding of `Executor.run_tool`: early-returns (without an
`elapsed` key) when the tool lacks `code` or `func_name`, else runs. -/
def Executor.run_tool (cfg : ExecCfg) (tool : Tool) (b : ProcBehavior) : ExecResult :=
  if tool.code = "" ∨ tool.func_name = "" then
    { ok := false, output := .none,
      error := some "tool missing code or func_name", elapsed := Option.none }
  else
    Executor.runScript cfg b

/-- One row of the `results` list built by the loop in
`Executor.test_tool` (lines 82-106 of executor.py). -/
structure TestOutcome where
  label : String
  passed : Bool
  expected_success : Bool
  actual_success : PyVal
  output : PyVal
  error : Option String
  elapsed : Option ℚ

/-- The body of one iteration of the test loop in `Executor.test_tool`. -/
def Executor.caseOutcome (cfg : ExecCfg) (code func_name : String)
    (b : ProcBehavior) (tc : TestCase) : TestOutcome :=
  let expect_ok := tc.expect_success.getD true
  let label := tc.label.getD "unnamed"
  let r := Executor.run_code cfg code func_name b
  let actual0 : Bool := r.ok && (!(r.output.isNone) || (expect_ok == false))
  let actual : PyVal :=
    if r.ok && r.output.isDict then
      dictGet r.output.dictEntries "success" (.bool true)
    else
      .bool actual0
  let hit := pyEqBool actual expect_ok
  { label := label, passed := hit, expected_success := expect_ok,
    actual_success := actual, output := r.output, error := r.error,
    elapsed := r.elapsed }

/-- The test loop: one `run_code` call per test case, in declared order
(the i-th spawned child behaves as `engine i`). -/
def Executor.runCases (cfg : ExecCfg) (code func_name : String)
    (engine : Nat → ProcBehavior) : List TestCase → List TestOutcome
  | [] => []
  | tc :: rest =>
      Executor.caseOutcome cfg code func_name (engine 0) tc ::
        Executor.runCases cfg code func_name (fun i => engine (i + 1)) rest

/-- Gate verdict dict returned by `Executor.test_tool`.  The
`passed_count`/`total_count` keys are absent (`none`) on the syntax-fail
and no-test-cases early returns, as in the source. -/
structure Verdict where
  passed : Bool
  pass_rate : ℚ
  passed_count : Option Nat
  total_count : Option Nat
  results : List TestOutcome
  error : Option String

/-- Python `str(x)` of the optional syntax-error message (an absent
message would print as `"None"`). -/
def optMsg : Option String → String
  | some m => m
  | Option.none => "None"

/-- Embedding of `Executor.test_tool`.  Returns the verdict together
with the number of Execution Engine invocations (`run_code` calls) the
call performed.  The pass decision hardcodes the 3/4 threshold, exactly
as `rate >= 0.75` in the source (floats `p/t` vs `0.75` compare the
same as the exact rationals for any realistic test count). -/
def Executor.test_tool (w : World) (cfg : ExecCfg) (tool : Tool) : Verdict × Nat :=
  let code := tool.code
  let func_name := tool.func_name
  let cases := tool.test_cases
  let s := w.syn code
  if s.1 = false then
    ({ passed := false, pass_rate := 0, passed_count := Option.none,
       total_count := Option.none, results := [],
       error := some ("SyntaxError: " ++ optMsg s.2) }, 0)
  else if cases.isEmpty then
    ({ passed := true, pass_rate := 1, passed_count := Option.none,
       total_count := Option.none, results := [], error := Option.none }, 0)
  else
    let results := Executor.runCases cfg code func_name w.engine cases
    let passedN := results.countP (fun o => o.passed)
    let total := cases.length
    let rate : ℚ := (passedN : ℚ) / (total : ℚ)
    ({ passed := decide ((3 : ℚ) / 4 ≤ rate), pass_rate := rate,
       passed_count := some passedN, total_count := some total,
       results := results, error := Option.none }, cases.length)

/-- State of the tool store and archive kept by `Memory`.  `tools`
models the insertion-ordered Python dict `self._tools` (and the one
JSON file per name backing it); `archive` models the files written to
`memory/archive/`, keyed by `(name, timestamp)` and listed in write
order. -/
structure MemoryState where
  tools : List (String × Tool)
  archive : List (String × String × Tool)

/-- Python dict assignment `d[k] = v`: update in place (keeping the
key's position) when the key exists, else append. -/
def dictInsert (l : List (String × Tool)) (k : String) (v : Tool) :
    List (String × Tool) :=
  if l.any (fun p => p.1 == k) then
    l.map (fun p => if p.1 == k then (k, v) else p)
  else
    l ++ [(k, v)]

/-- Embedding of `_short_hash`: first 10 hex digits of the MD5 of the
given text (the MD5 itself is the external oracle `md5hex`). -/
def shortHash (md5hex : String → String) (s : String) : String :=
  (md5hex s).take 10

/-- The name `Memory.save_tool` files the tool under:
`tool.get("name", f"tool_{_short_hash(str(tool))}")`. -/
def Memory.saveName (w : World) (tool : Tool) : String :=
  tool.name.getD ("tool_" ++ shortHash w.md5hex (w.reprTool tool))

/-- Embedding of `Memory.save_tool`: stamps `name` and `updated_at`
into the tool dict (the mutation of the caller's dict is returned as
the second component) and stores it under `name`. -/
def Memory.save_tool (w : World) (now : String) (m : MemoryState) (tool : Tool) :
    MemoryState × Tool :=
  let name := Memory.saveName w tool
  let tool' := { tool with name := some name, updated_at := some now }
  ({ m with tools := dictInsert m.tools name tool' }, tool')

/-- Embedding of `Memory.get_tool`. -/
def Memory.get_tool (m : MemoryState) (name : String) : Option Tool :=
  m.tools.lookup name

/-- Embedding of `Memory.archive_tool`: writes the tool to
`archive/{name}_{ts}.json`. -/
def Memory.archive_tool (ts : String) (m : MemoryState) (tool : Tool) : MemoryState :=
  { m with archive := m.archive ++ [(tool.name.getD "unknown", ts, tool)] }

/-- Embedding of `Memory.delete_tool`: pops the entry if present,
archives it, and removes its file. -/
def Memory.delete_tool (ts : String) (m : MemoryState) (name : String) : MemoryState :=
  match m.tools.lookup name with
  | some tool =>
      Memory.archive_tool ts
        { m with tools := m.tools.filter (fun p => !(p.1 == name)) } tool
  | Option.none => m

/-- Python `str.lower()`, character-wise on the underlying characters. -/
def pyLower (s : String) : String :=
  String.mk (s.data.map Char.toLower)

/-- Helper for Python `str.split()` with no argument: accumulate the
current token (in reverse) and break on whitespace, producing no empty
tokens. -/
def pySplitAux : List Char → List Char → List String
  | [], cur => if cur = [] then [] else [String.mk cur.reverse]
  | c :: cs, cur =>
      if c.isWhitespace then
        if cur = [] then pySplitAux cs []
        else String.mk cur.reverse :: pySplitAux cs []
      else pySplitAux cs (c :: cur)

/-- Python `str.split()` with no argument: split on whitespace runs. -/
def pySplit (s : String) : List String :=
  pySplitAux s.data []

/-- Lowercased whitespace tokens of the task text, deduplicated:
`set(task.lower().split())`. -/
def taskWords (task : String) : List String :=
  (pySplit (pyLower task)).dedup

/-- The text a tool is matched against:
`f"{tool.get('name','')} {tool.get('description','')}".lower()`. -/
def toolText (tool : Tool) : String :=
  pyLower ((tool.name.getD "") ++ " " ++ tool.description)

/-- Python substring test `needle in hay` on strings. -/
def strContains (hay needle : String) : Bool :=
  (List.range (hay.data.length + 1)).any
    (fun i => needle.data.isPrefixOf (hay.data.drop i))

/-- The per-tool score of `Memory.best_tool_for`:
`sum(1 for w in words if w in text)`, i.e. the number of distinct task
words occurring as substrings of the tool's text. -/
def Memory.relevance (task : String) (tool : Tool) : Nat :=
  (taskWords task).countP (fun v => strContains (toolText tool) v)

/-- One step of the selection loop in `Memory.best_tool_for` (strict
`score > best_score`, so the first tool attaining the maximum wins). -/
def Memory.bestStep (task : String) (acc : Option Tool × Nat) (tool : Tool) :
    Option Tool × Nat :=
  if Memory.relevance task tool > acc.2 then (some tool, Memory.relevance task tool) else acc

/-- Embedding of `Memory.best_tool_for`: fold the loop over the stored
tools in dict (insertion) order; return the best tool iff its score is
at least 2. -/
def Memory.best_tool_for (m : MemoryState) (task : String) : Option Tool :=
  let r := m.tools.foldl (fun acc p => Memory.bestStep task acc p.2) (Option.none, 0)
  if r.2 ≥ 2 then r.1 else Option.none

/-- Result dict of `Integrator.integrate`. -/
structure IntegrateResult where
  ok : Bool
  tool_name : String
  pass_rate : ℚ
  test_results : List TestOutcome
  error : Option String

/-- Python `x or default` for an optional/empty error string. -/
def orDefault (o : Option String) (d : String) : Option String :=
  match o with
  | some s => if s = "" then some d else some s
  | Option.none => some d

/-- Embedding of `Integrator.integrate`.  `threshold` is the
Integrator's `pass_threshold` field; in the source it appears only in a
log message, so it does not influence the result (the pass decision is
the hardcoded `rate >= 0.75` inside `Executor.test_tool`). -/
def Integrator.integrate (w : World) (cfg : ExecCfg) (threshold : ℚ) (now : String)
    (m : MemoryState) (tool : Tool) : IntegrateResult × MemoryState :=
  let _ := threshold
  let name := tool.name.getD "unnamed"
  let tr := (Executor.test_tool w cfg tool).1
  if tr.passed then
    ({ ok := true, tool_name := name, pass_rate := tr.pass_rate,
       test_results := tr.results, error := Option.none },
     (Memory.save_tool w now m tool).1)
  else
    ({ ok := false, tool_name := name, pass_rate := tr.pass_rate,
       test_results := tr.results,
       error := orDefault tr.error "did not meet pass threshold" }, m)

/-- Embedding of `Integrator.upgrade`: archive the old version if
present, then integrate the new one. -/
def Integrator.upgrade (w : World) (cfg : ExecCfg) (threshold : ℚ) (ts now : String)
    (m : MemoryState) (tool_name : String) (new_tool : Tool) :
    IntegrateResult × MemoryState :=
  let m1 :=
    match Memory.get_tool m tool_name with
    | some old => Memory.archive_tool ts m old
    | Option.none => m
  Integrator.integrate w cfg threshold now m1 new_tool

/-- Store invariant: every key of the tool store equals its record's
`name` field. -/
def StoreInv (m : MemoryState) : Prop :=
  ∀ p ∈ m.tools, p.2.name = some p.1

theorem lookup_update_of_any (k : String) (v : Tool) :
    ∀ l : List (String × Tool), l.any (fun p => p.1 == k) = true →
      (l.map (fun p => if p.1 == k then (k, v) else p)).lookup k = some v := by
  intro l
  induction l with
  | nil => intro h; simp at h
  | cons a l ih =>
    intro h
    obtain ⟨a1, a2⟩ := a
    by_cases ha : a1 = k
    · subst ha
      simp [List.lookup_cons]
    · have ha' : (a1 == k) = false := beq_false_of_ne ha
      have hk : (k == a1) = false := beq_false_of_ne (Ne.symm ha)
      have h' : l.any (fun p => p.1 == k) = true := by
        simpa [List.any_cons, ha'] using h
      rw [List.map_cons]
      have hhead : (if ((a1, a2) : String × Tool).1 == k then (k, v) else (a1, a2)) =
          (a1, a2) := by
        simp [ha']
      rw [hhead, List.lookup_cons, hk]
      exact ih h'

theorem lookup_append_of_not_any (k : String) (v : Tool) :
    ∀ l : List (String × Tool), l.any (fun p => p.1 == k) = false →
      (l ++ [(k, v)]).lookup k = some v := by
  intro l
  induction l with
  | nil => intro _; simp [List.lookup_cons]
  | cons a l ih =>
    intro h
    obtain ⟨a1, a2⟩ := a
    simp only [List.any_cons, Bool.or_eq_false_iff] at h
    have ha : a1 ≠ k := by
      intro hh
      rw [hh] at h
      simp at h
    have hk : (k == a1) = false := beq_false_of_ne (Ne.symm ha)
    rw [List.cons_append, List.lookup_cons, hk]
    exact ih h.2

/-- After a Python dict assignment the assigned key maps to the new
value. -/
theorem lookup_dictInsert (k : String) (v : Tool) (l : List (String × Tool)) :
    (dictInsert l k v).lookup k = some v := by
  unfold dictInsert
  by_cases h : l.any (fun p => p.1 == k) = true
  · rw [if_pos h]
    exact lookup_update_of_any k v l h
  · rw [if_neg h]
    exact lookup_append_of_not_any k v l (Bool.eq_false_iff.mpr h)

theorem storeInvList_dictInsert (l : List (String × Tool)) (k : String) (v : Tool)
    (hv : v.name = some k) (h : ∀ p ∈ l, p.2.name = some p.1) :
    ∀ p ∈ dictInsert l k v, p.2.name = some p.1 := by
  intro p hp
  unfold dictInsert at hp
  by_cases hc : l.any (fun q => q.1 == k) = true
  · rw [if_pos hc] at hp
    obtain ⟨q, hq, rfl⟩ := List.mem_map.mp hp
    by_cases hqk : (q.1 == k) = true
    · simp only [hqk, if_true]
      exact hv
    · simp only [hqk]
      simpa using h q hq
  · rw [if_neg hc] at hp
    rcases List.mem_append.mp hp with hl | hr
    · exact h p hl
    · have : p = (k, v) := by simpa using hr
      rw [this]
      exact hv

theorem runCases_length (cfg : ExecCfg) (code fn : String) :
    ∀ (cases : List TestCase) (engine : Nat → ProcBehavior),
      (Executor.runCases cfg code fn engine cases).length = cases.length := by
  intro cases
  induction cases with
  | nil => intro engine; rfl
  | cons tc rest ih => intro engine; simp [Executor.runCases, ih]

theorem runCases_getElem? (cfg : ExecCfg) (code fn : String) :
    ∀ (cases : List TestCase) (engine : Nat → ProcBehavior) (i : Nat),
      (Executor.runCases cfg code fn engine cases)[i]? =
        (cases[i]?).map (fun tc => Executor.caseOutcome cfg code fn (engine i) tc) := by
  intro cases
  induction cases with
  | nil => intro engine i; simp [Executor.runCases]
  | cons tc rest ih =>
    intro engine i
    cases i with
    | zero => simp [Executor.runCases]
    | succ n => simp [Executor.runCases, ih]

theorem bestStep_le (task : String) (acc : Option Tool × Nat) (t : Tool) :
    acc.2 ≤ (Memory.bestStep task acc t).2 := by
  unfold Memory.bestStep
  by_cases h : Memory.relevance task t > acc.2
  · rw [if_pos h]
    exact le_of_lt h
  · rw [if_neg h]

theorem bestStep_score_le (task : String) (acc : Option Tool × Nat) (t : Tool) :
    Memory.relevance task t ≤ (Memory.bestStep task acc t).2 := by
  unfold Memory.bestStep
  by_cases h : Memory.relevance task t > acc.2
  · rw [if_pos h]
  · rw [if_neg h]
    exact Nat.le_of_not_lt h

theorem bestStep_cases (task : String) (acc : Option Tool × Nat) (t : Tool) :
    Memory.bestStep task acc t = acc ∨
      (Memory.bestStep task acc t = (some t, Memory.relevance task t)) := by
  unfold Memory.bestStep
  by_cases h : Memory.relevance task t > acc.2
  · rw [if_pos h]
    exact Or.inr rfl
  · rw [if_neg h]
    exact Or.inl rfl

/-- Invariant of the selection loop in `Memory.best_tool_for`: the
accumulator's score never decreases, dominates every processed tool's
score, and the accumulator is either untouched or holds some processed
tool together with its score. -/
theorem bestFold_spec (task : String) :
    ∀ (l : List (String × Tool)) (acc : Option Tool × Nat),
      acc.2 ≤ (l.foldl (fun a p => Memory.bestStep task a p.2) acc).2 ∧
      (∀ p ∈ l, Memory.relevance task p.2 ≤
        (l.foldl (fun a p => Memory.bestStep task a p.2) acc).2) ∧
      ((l.foldl (fun a p => Memory.bestStep task a p.2) acc) = acc ∨
        ∃ p ∈ l, (l.foldl (fun a p => Memory.bestStep task a p.2) acc).1 = some p.2 ∧
          (l.foldl (fun a p => Memory.bestStep task a p.2) acc).2 =
            Memory.relevance task p.2) := by
  intro l
  induction l with
  | nil => intro acc; exact ⟨le_refl _, by simp, Or.inl rfl⟩
  | cons a l ih =>
    intro acc
    have hfold : (a :: l).foldl (fun a p => Memory.bestStep task a p.2) acc =
        l.foldl (fun a p => Memory.bestStep task a p.2) (Memory.bestStep task acc a.2) := by
      simp [List.foldl_cons]
    obtain ⟨h1, h2, h3⟩ := ih (Memory.bestStep task acc a.2)
    refine ⟨?_, ?_, ?_⟩
    · rw [hfold]
      exact le_trans (bestStep_le task acc a.2) h1
    · intro p hp
      rw [hfold]
      rcases List.mem_cons.mp hp with rfl | hmem
      · exact le_trans (bestStep_score_le task acc p.2) h1
      · exact h2 p hmem
    · rw [hfold]
      rcases h3 with heq | ⟨p, hmem, hfst, hsnd⟩
      · rcases bestStep_cases task acc a.2 with hk | hn
        · rw [heq, hk]
          exact Or.inl rfl
        · rw [heq, hn]
          exact Or.inr ⟨a, List.mem_cons_self a l, rfl, rfl⟩
      · exact Or.inr ⟨p, List.mem_cons_of_mem a hmem, hfst, hsnd⟩

/-- If no remaining tool beats the accumulator's score, the selection
loop leaves the accumulator unchanged. -/
theorem bestFold_keep (task : String) :
    ∀ (l : List (String × Tool)) (acc : Option Tool × Nat),
      (∀ p ∈ l, Memory.relevance task p.2 ≤ acc.2) →
      l.foldl (fun a p => Memory.bestStep task a p.2) acc = acc := by
  intro l
  induction l with
  | nil => intro acc _; rfl
  | cons a l ih =>
    intro acc h
    have hstep : Memory.bestStep task acc a.2 = acc := by
      unfold Memory.bestStep
      rw [if_neg (Nat.not_lt.mpr (h a (List.mem_cons_self a l)))]
    rw [List.foldl_cons, hstep]
    exact ih acc (fun p hp => h p (List.mem_cons_of_mem a hp))

theorem append_ne_empty_of_left (a b : String) (ha : a ≠ "") : a ++ b ≠ "" := by
  intro h
  apply ha
  have hlen := congrArg String.length h
  rw [String.length_append] at hlen
  have hz : ("" : String).length = 0 := rfl
  have h0 : a.length = 0 := by omega
  cases a with
  | mk data =>
    cases data with
    | nil => rfl
    | cons c cs => simp [String.length] at h0

/-- Fixture executor configuration. -/
def cfg0 : ExecCfg :=
  { timeout := 30 }

/-- Fixture world: syntax always valid, engine irrelevant, fixed hash
oracle. -/
def w0 : World :=
  { syn := fun _ => (true, Option.none), engine := fun _ => ProcBehavior.timedOut 0,
    md5hex := fun _ => "0123456789abcdef0123456789abcdef", reprTool := fun _ => "" }

/-- Shape of a parsed stdout line per the wire contract of
`Executor._build_runner`: the success line carries no `error` key; the
failure line `{"ok": False, "output": None, "error": str(e)}` has a
null output and an error string.  Nothing more is assumed — in
particular `str(e)` may be the empty string (an exception raised
without a message). -/
def Envelope.WireShape (e : Envelope) : Prop :=
  (e.ok = true → e.error = Option.none) ∧
  (e.ok = false → e.output = PyVal.none ∧ ∃ s, e.error = some s)

/-- Shape constraint on an observed child behaviour: a parsed stdout
line obeys the wire contract.  No nonemptiness of any error text is
assumed; the source never guarantees it. -/
def ProcBehavior.WireShape : ProcBehavior → Prop
  | .completed parsed _ _ _ => ∀ e, parsed = some e → e.WireShape
  | .timedOut _ => True
  | .exn _ _ => True

/-- The Execution Result invariant the code actually guarantees:
`elapsed` is present, and on `ok = false` the `output` is null while
the `error` key holds a string.  That string may be empty (when it is
an exception's `str(e)`), so on failure at most `error` — not always
exactly one field — is meaningfully populated. -/
def resultInvariant (r : ExecResult) : Prop :=
  r.elapsed.isSome = true ∧
    (r.ok = false → r.output = PyVal.none ∧ ∃ s, r.error = some s)

theorem runScript_invariant (cfg : ExecCfg) (b : ProcBehavior)
    (hb : b.WireShape) : resultInvariant (Executor.runScript cfg b) := by
  cases b with
  | completed parsed stdout stderr elapsed =>
    simp only [Executor.runScript]
    by_cases hs : stdout ≠ ""
    · rw [if_pos hs]
      cases parsed with
      | none =>
        exact ⟨rfl, fun hok => by cases hok⟩
      | some data =>
        exact ⟨rfl, fun hok => (hb data rfl).2 hok⟩
    · rw [if_neg hs]
      exact ⟨rfl, fun _ => ⟨rfl, ⟨if stderr ≠ "" then stderr else "no output", rfl⟩⟩⟩
  | timedOut elapsed =>
    exact ⟨rfl, fun _ => ⟨rfl,
      ⟨"timed out after " ++ toString cfg.timeout ++ "s", rfl⟩⟩⟩
  | exn msg elapsed =>
    exact ⟨rfl, fun _ => ⟨rfl, msg, rfl⟩⟩

/-- Tool dict with no `code`, triggering `run_tool`'s early return. -/
def toolNoCode : Tool :=
  { name := some "broken", description := "", code := "", func_name := "f",
    test_cases := [], updated_at := Option.none }

/-- Child behaviour: the harness failure line of a tool that raised an
exception with an empty message, `{"ok": False, "output": None,
"error": str(e)}` with `str(e) = ""`. -/
def behEmptyError : ProcBehavior :=
  ProcBehavior.completed
    (some { ok := false, output := PyVal.none, error := some "" }) "x" "" 1

/-- C7 counterexample, both halves of the claim: (a) `elapsed` is not
always present — the `run_tool` early return for a tool missing
`code`/`func_name` (executor.py line 48) carries no `elapsed` key; and
(b) with `ok = false`, it is not always the case that exactly one of
`output`/`error` is meaningfully populated — a tool raising an
exception without a message yields the harness failure line with
`error = str(e) = ""`, so `run_code` returns `ok = false` with a null
output and an empty error string: neither field is populated. -/
theorem C7_counterexample_missing_elapsed :
    (Executor.run_tool cfg0 toolNoCode (ProcBehavior.timedOut 1)).elapsed = Option.none ∧
    (Executor.run_tool cfg0 toolNoCode (ProcBehavior.timedOut 1)).ok = false ∧
    (Executor.run_code cfg0 "def f(**k):\n    raise ValueError()" "f"
      behEmptyError).ok = false ∧
    (Executor.run_code cfg0 "def f(**k):\n    raise ValueError()" "f"
      behEmptyError).output = PyVal.none ∧
    (Executor.run_code cfg0 "def f(**k):\n    raise ValueError()" "f"
      behEmptyError).error = some "" := by
  refine ⟨rfl, rfl, rfl, rfl, rfl⟩

/-- C7 (amended): every result of `run_code`, and every result of
`run_tool` for a tool with nonempty `code` and `func_name`, carries an
`elapsed` field, and whenever `ok = false` the `output` is null while
the `error` key holds a string — possibly empty, since it can be an
exception's `str(e)`, so on failure at most `error` is meaningfully
populated rather than always exactly one field.  Only the `run_tool`
early return for a tool missing `code` or `func_name` lacks
`elapsed`. -/
theorem C7_amended_result_invariant (cfg : ExecCfg) (tool : Tool) (b : ProcBehavior)
    (hb : b.WireShape) (hc : tool.code ≠ "") (hf : tool.func_name ≠ "") :
    resultInvariant (Executor.run_tool cfg tool b) ∧
    resultInvariant (Executor.run_code cfg tool.code tool.func_name b) := by
  constructor
  · unfold Executor.run_tool
    rw [if_neg (not_or.mpr ⟨hc, hf⟩)]
    exact runScript_invariant cfg b hb
  · exact runScript_invariant cfg b hb

/-- Tool dict with code and entry point present. -/
def toolOkC7 : Tool :=
  { name := some "x", description := "", code := "def f(**k):\n    return 1",
    func_name := "f", test_cases := [], updated_at := Option.none }

theorem C7_amended_witness :
    resultInvariant (Executor.run_tool cfg0 toolOkC7 behEmptyError) ∧
    resultInvariant (Executor.run_code cfg0 toolOkC7.code toolOkC7.func_name
      behEmptyError) :=
  C7_amended_result_invariant cfg0 toolOkC7 behEmptyError
    (by
      intro e he
      cases he
      exact ⟨fun hok => Bool.noConfusion hok, fun _ => ⟨rfl, ⟨"", rfl⟩⟩⟩)
    (by decide) (by decide)

/-- C8: a candidate whose source fails the static syntax pre-check gets
a verdict with `passed = false`, `pass_rate = 0`, no result rows and a
populated `SyntaxError` message; the Execution Engine is invoked zero
times, and the verdict does not depend on the engine oracle at all. -/
theorem C8_syntax_precheck_short_circuits (w : World) (cfg : ExecCfg) (tool : Tool)
    (h : (w.syn tool.code).1 = false) :
    (Executor.test_tool w cfg tool).1.passed = false ∧
    (Executor.test_tool w cfg tool).1.pass_rate = 0 ∧
    (Executor.test_tool w cfg tool).1.results = [] ∧
    (Executor.test_tool w cfg tool).1.error =
      some ("SyntaxError: " ++ optMsg (w.syn tool.code).2) ∧
    (∃ s, (Executor.test_tool w cfg tool).1.error = some s ∧ s ≠ "") ∧
    (Executor.test_tool w cfg tool).2 = 0 ∧
    (∀ e2, Executor.test_tool { w with engine := e2 } cfg tool =
      Executor.test_tool w cfg tool) := by
  have hres : Executor.test_tool w cfg tool =
      ({ passed := false, pass_rate := 0, passed_count := Option.none,
         total_count := Option.none, results := [],
         error := some ("SyntaxError: " ++ optMsg (w.syn tool.code).2) }, 0) := by
    unfold Executor.test_tool
    rw [if_pos h]
  have hne : ("SyntaxError: " ++ optMsg (w.syn tool.code).2) ≠ "" :=
    append_ne_empty_of_left "SyntaxError: " (optMsg (w.syn tool.code).2) (by decide)
  refine ⟨by rw [hres], by rw [hres], by rw [hres], by rw [hres],
    ⟨"SyntaxError: " ++ optMsg (w.syn tool.code).2, by rw [hres], hne⟩,
    by rw [hres], ?_⟩
  intro e2
  have hres2 : Executor.test_tool { w with engine := e2 } cfg tool =
      ({ passed := false, pass_rate := 0, passed_count := Option.none,
         total_count := Option.none, results := [],
         error := some ("SyntaxError: " ++ optMsg (w.syn tool.code).2) }, 0) := by
    unfold Executor.test_tool
    rw [if_pos h]
  rw [hres, hres2]

/-- Fixture world whose syntax pre-check always fails. -/
def wSynBad : World :=
  { syn := fun _ => (false, some "invalid syntax"), engine := fun _ => ProcBehavior.timedOut 0,
    md5hex := fun _ => "0123456789abcdef0123456789abcdef", reprTool := fun _ => "" }

/-- Fixture tool with an unparsable body and one declared test case. -/
def toolBadSyntax : Tool :=
  { name := some "broken", description := "broken tool", code := "def broken(",
    func_name := "broken",
    test_cases := [{ input := [], expect_success := some true, label := some "t1" }],
    updated_at := Option.none }

theorem C8_witness :
    (wSynBad.syn toolBadSyntax.code).1 = false ∧
    (Executor.test_tool wSynBad cfg0 toolBadSyntax).1.passed = false ∧
    (Executor.test_tool wSynBad cfg0 toolBadSyntax).2 = 0 :=
  ⟨rfl, (C8_syntax_precheck_short_circuits wSynBad cfg0 toolBadSyntax rfl).1,
    (C8_syntax_precheck_short_circuits wSynBad cfg0 toolBadSyntax rfl).2.2.2.2.2.1⟩

/-- C9: when the child's stripped standard output is nonempty but does
not parse as the result envelope, the engine returns `ok = true` with
the raw text as `output` and the measured `elapsed`. -/
theorem C9_unparsable_stdout_is_output (cfg : ExecCfg) (code fn stdout stderr : String)
    (e : ℚ) (h : stdout ≠ "") :
    Executor.run_code cfg code fn (ProcBehavior.completed Option.none stdout stderr e) =
      { ok := true, output := PyVal.str stdout, error := Option.none,
        elapsed := some e } := by
  unfold Executor.run_code Executor.runScript
  simp [h]

theorem C9_witness :
    ("hello world" ≠ "") ∧
      Executor.run_code cfg0 "c" "f"
          (ProcBehavior.completed Option.none "hello world" "" 2) =
        { ok := true, output := PyVal.str "hello world", error := Option.none,
          elapsed := some 2 } :=
  ⟨by decide, C9_unparsable_stdout_is_output cfg0 "c" "f" "hello world" "" 2 (by decide)⟩

/-- The per-case success rule of the corrected C4 claim: outer
`ok = false` always wins; a dict output defers to its own `success`
entry (default true); otherwise `actual_success` is true iff the output
is not null or the case expected failure. -/
def actualSuccessRule (r : ExecResult) (expect_ok : Bool) : PyVal :=
  if r.ok = false then PyVal.bool false
  else if r.output.isDict then dictGet r.output.dictEntries "success" (PyVal.bool true)
  else PyVal.bool (!(r.output.isNone) || !expect_ok)

theorem caseOutcome_actual_eq (cfg : ExecCfg) (code fn : String) (b : ProcBehavior)
    (tc : TestCase) :
    (Executor.caseOutcome cfg code fn b tc).actual_success =
      actualSuccessRule (Executor.run_code cfg code fn b)
        (tc.expect_success.getD true) := by
  unfold Executor.caseOutcome actualSuccessRule
  cases hok : (Executor.run_code cfg code fn b).ok with
  | false => simp [hok]
  | true =>
    cases hd : (Executor.run_code cfg code fn b).output.isDict with
    | true => simp [hok, hd]
    | false =>
      simp only [hok, hd, Bool.true_and, Bool.and_false, if_false, Bool.false_eq_true,
        if_neg, if_pos]
      cases tc.expect_success.getD true <;> simp

/-- C4 (amended): for every evaluated test case, `actual_success`
follows the rule: `ok = false` yields false; `ok = true` with a dict
output yields the dict's own `success` entry (default true); in every
other `ok = true` case it is true iff the output is not null or the
case's `expect_success` is false. -/
theorem C4_amended_actual_success_rule (w : World) (cfg : ExecCfg) (tool : Tool)
    (i : Nat) (tc : TestCase) (hsyn : (w.syn tool.code).1 = true)
    (hi : tool.test_cases[i]? = some tc) :
    ((Executor.test_tool w cfg tool).1.results[i]?).map (fun o => o.actual_success) =
      some (actualSuccessRule
        (Executor.run_code cfg tool.code tool.func_name (w.engine i))
        (tc.expect_success.getD true)) := by
  have hne : tool.test_cases.isEmpty = false := by
    cases hcase : tool.test_cases with
    | nil => rw [hcase] at hi; simp at hi
    | cons a l => simp [List.isEmpty]
  have hform : (Executor.test_tool w cfg tool).1.results =
      Executor.runCases cfg tool.code tool.func_name w.engine tool.test_cases := by
    unfold Executor.test_tool
    rw [if_neg (by simp [hsyn]), if_neg (by simp [hne])]
  rw [hform, runCases_getElem?, hi]
  simp [caseOutcome_actual_eq]

/-- Child behaviour: envelope `ok = true` with a null output. -/
def behNullOutput : ProcBehavior :=
  ProcBehavior.completed
    (some { ok := true, output := PyVal.none, error := Option.none }) "x" "" 0

/-- Fixture world whose every child run returns the null-output
envelope. -/
def wC4 : World :=
  { syn := fun _ => (true, Option.none), engine := fun _ => behNullOutput,
    md5hex := fun _ => "", reprTool := fun _ => "" }

/-- Fixture test case expecting success. -/
def tcC4 : TestCase :=
  { input := [], expect_success := some true, label := some "t" }

/-- Fixture tool whose function returns `None`. -/
def toolC4 : Tool :=
  { name := some "noop", description := "returns nothing",
    code := "def f(**k):\n    return None", func_name := "f",
    test_cases := [tcC4], updated_at := Option.none }

/-- C4 fails as stated: here the engine result has `ok = true` and a
non-dict output (null), yet `actual_success` is `False` — the claim's
final clause demands `True` in every such case (executor.py line 88
also consults the case's `expect_success`). -/
theorem C4_counterexample_null_output :
    (Executor.run_code cfg0 toolC4.code toolC4.func_name behNullOutput).ok = true ∧
    (Executor.run_code cfg0 toolC4.code toolC4.func_name behNullOutput).output =
      PyVal.none ∧
    (Executor.run_code cfg0 toolC4.code toolC4.func_name behNullOutput).output.isDict =
      false ∧
    ((Executor.test_tool wC4 cfg0 toolC4).1.results.map (fun o => o.actual_success)) =
      [PyVal.bool false] := by
  refine ⟨rfl, rfl, rfl, rfl⟩

theorem C4_amended_witness :
    ((Executor.test_tool wC4 cfg0 toolC4).1.results[0]?).map (fun o => o.actual_success) =
      some (actualSuccessRule
        (Executor.run_code cfg0 toolC4.code toolC4.func_name (wC4.engine 0))
        (tcC4.expect_success.getD true)) :=
  C4_amended_actual_success_rule wC4 cfg0 toolC4 0 tcC4 rfl rfl

/-- Tokens of a capability's matching text under the same whitespace
tokenizer as the task words.  Written from the C5 claim's wording
(token-set intersection) for comparison with the source's substring
scorer; it is not a translation of the source. -/
def toolTokens (tool : Tool) : List String :=
  (pySplit (toolText tool)).dedup

/-- The scorer the C5 claim describes:
`score = |words ∩ tokens(name ⧺ description)|`. -/
def tokenScoreSpec (task : String) (tool : Tool) : Nat :=
  (taskWords task).countP (fun w => (toolTokens tool).contains w)

/-- Fixture tool whose name/description contain no task token but do
contain task words as substrings. -/
def toolProfiler : Tool :=
  { name := some "profiler", description := "updates metadata", code := "",
    func_name := "", test_cases := [], updated_at := Option.none }

/-- Fixture store holding only the profiler tool. -/
def mC5 : MemoryState :=
  { tools := [("profiler", toolProfiler)], archive := [] }

/-- C5 fails as stated: the source scores by Python substring
containment (`w in text`), not token-set intersection.  For the task
"read file data", "file" is a substring of "profiler" and "data" of
"metadata", so the source returns the tool with score 2, while the
claimed token-intersection score is 0, which demands absence. -/
theorem C5_counterexample_substring_not_tokens :
    Memory.best_tool_for mC5 "read file data" = some toolProfiler ∧
    Memory.relevance "read file data" toolProfiler = 2 ∧
    tokenScoreSpec "read file data" toolProfiler = 0 := by
  refine ⟨rfl, rfl, rfl⟩

/-- C5 (amended): `best_match` scores every stored capability by the
number of distinct lowercase task words occurring as substrings of the
lowercased name-and-description text, and returns a maximum-scoring
capability when that score is at least 2, absent otherwise. -/
theorem C5_amended_substring_scoring (m : MemoryState) (task : String) :
    (∀ t, Memory.best_tool_for m task = some t →
      (∃ p ∈ m.tools, p.2 = t) ∧ 2 ≤ Memory.relevance task t ∧
        ∀ p ∈ m.tools, Memory.relevance task p.2 ≤ Memory.relevance task t) ∧
    (Memory.best_tool_for m task = Option.none →
      ∀ p ∈ m.tools, Memory.relevance task p.2 < 2) := by
  obtain ⟨-, h2, h3⟩ := bestFold_spec task m.tools ((Option.none : Option Tool), 0)
  have hbt : Memory.best_tool_for m task =
      if (m.tools.foldl (fun acc p => Memory.bestStep task acc p.2)
          ((Option.none : Option Tool), 0)).2 ≥ 2
      then (m.tools.foldl (fun acc p => Memory.bestStep task acc p.2)
          ((Option.none : Option Tool), 0)).1
      else Option.none := rfl
  constructor
  · intro t ht
    rw [hbt] at ht
    by_cases hs : (m.tools.foldl (fun acc p => Memory.bestStep task acc p.2)
        ((Option.none : Option Tool), 0)).2 ≥ 2
    · rw [if_pos hs] at ht
      rcases h3 with heq | ⟨p, hp, hfst, hsnd⟩
      · rw [heq] at ht
        simp at ht
      · rw [hfst] at ht
        have ht' : p.2 = t := by injection ht
        subst ht'
        rw [hsnd] at hs h2
        exact ⟨⟨p, hp, rfl⟩, hs, h2⟩
    · rw [if_neg hs] at ht
      cases ht
  · intro ht p hp
    rw [hbt] at ht
    by_cases hs : (m.tools.foldl (fun acc p => Memory.bestStep task acc p.2)
        ((Option.none : Option Tool), 0)).2 ≥ 2
    · rw [if_pos hs] at ht
      rcases h3 with heq | ⟨q, hq, hfst, hsnd⟩
      · rw [heq] at hs
        simp at hs
      · rw [hfst] at ht
        cases ht
    · exact lt_of_le_of_lt (h2 p hp) (Nat.not_le.mp hs)

theorem C5_amended_witness :
    (∃ p ∈ mC5.tools, p.2 = toolProfiler) ∧
      2 ≤ Memory.relevance "read file data" toolProfiler ∧
      ∀ p ∈ mC5.tools, Memory.relevance "read file data" p.2 ≤
        Memory.relevance "read file data" toolProfiler :=
  (C5_amended_substring_scoring mC5 "read file data").1 toolProfiler rfl

/-- Fixture: older tied tool, inserted first. -/
def toolCsvOld : Tool :=
  { name := some "t1", description := "parse csv files", code := "", func_name := "",
    test_cases := [], updated_at := some "2024-01-01T00:00:00" }

/-- Fixture: more recently updated tied tool, inserted second. -/
def toolCsvNew : Tool :=
  { name := some "t2", description := "parse csv files", code := "", func_name := "",
    test_cases := [], updated_at := some "2025-06-01T00:00:00" }

/-- Fixture store with the two tied tools in insertion order. -/
def mC6 : MemoryState :=
  { tools := [("t1", toolCsvOld), ("t2", toolCsvNew)], archive := [] }

/-- C6 fails as stated: both tools tie at the maximal score 2 and the
second is the more recently updated, yet `best_tool_for` returns the
first-inserted one — the strict `score > best_score` keeps the earlier
accumulator, and `updated_at` is never consulted. -/
theorem C6_counterexample_tie_not_most_recent :
    Memory.relevance "parse csv" toolCsvOld = 2 ∧
    Memory.relevance "parse csv" toolCsvNew = 2 ∧
    Memory.best_tool_for mC6 "parse csv" = some toolCsvOld ∧
    toolCsvOld.updated_at = some "2024-01-01T00:00:00" ∧
    toolCsvNew.updated_at = some "2025-06-01T00:00:00" ∧
    toolCsvOld ≠ toolCsvNew := by
  refine ⟨rfl, rfl, rfl, rfl, rfl, ?_⟩
  intro h
  exact absurd (congrArg Tool.name h) (by decide)

/-- C6 (amended): among capabilities attaining the maximal score (≥ 2),
`best_tool_for` returns the one earliest in store insertion order — a
tool strictly beating every earlier tool's score and at least matching
every later tool's score is returned, regardless of `updated_at`. -/
theorem C6_amended_first_maximum_wins (m : MemoryState) (task : String)
    (l1 l2 : List (String × Tool)) (k : String) (t : Tool)
    (hm : m.tools = l1 ++ (k, t) :: l2)
    (h1 : ∀ p ∈ l1, Memory.relevance task p.2 < Memory.relevance task t)
    (h2 : ∀ p ∈ l2, Memory.relevance task p.2 ≤ Memory.relevance task t)
    (hs : 2 ≤ Memory.relevance task t) :
    Memory.best_tool_for m task = some t := by
  unfold Memory.best_tool_for
  rw [hm]
  simp only [List.foldl_append, List.foldl_cons]
  set r1 := l1.foldl (fun acc p => Memory.bestStep task acc p.2)
    ((Option.none : Option Tool), 0) with hr1def
  have hr1 : Memory.relevance task t > r1.2 := by
    obtain ⟨-, -, h3⟩ := bestFold_spec task l1 ((Option.none : Option Tool), 0)
    rw [hr1def]
    rcases h3 with heq | ⟨p, hp, -, hsnd⟩
    · rw [heq]
      exact lt_of_lt_of_le (by decide) hs
    · rw [hsnd]
      exact h1 p hp
  have hstep : Memory.bestStep task r1 t = (some t, Memory.relevance task t) := by
    unfold Memory.bestStep
    rw [if_pos hr1]
  rw [hstep, bestFold_keep task l2 (some t, Memory.relevance task t) h2]
  simp [hs]

theorem C6_amended_witness :
    Memory.best_tool_for mC6 "parse csv" = some toolCsvOld :=
  C6_amended_first_maximum_wins mC6 "parse csv" [] [("t2", toolCsvNew)] "t1" toolCsvOld
    rfl (fun p hp => absurd hp (List.not_mem_nil p))
    (fun p hp => by
      rcases List.mem_singleton.mp hp with rfl
      decide)
    (by decide)

/-- Fixture empty store. -/
def mEmpty : MemoryState :=
  { tools := [], archive := [] }

/-- C2: a candidate failing the Gate leaves the store untouched —
`integrate` returns `ok = false` with the memory state (tools mapping
and archive) unchanged, so any previous capability stays retrievable in
its prior form. -/
theorem C2_failed_candidate_leaves_store (w : World) (cfg : ExecCfg) (thr : ℚ)
    (now : String) (m : MemoryState) (tool : Tool)
    (h : (Executor.test_tool w cfg tool).1.passed = false) :
    (Integrator.integrate w cfg thr now m tool).2 = m ∧
    (Integrator.integrate w cfg thr now m tool).1.ok = false ∧
    (∀ n, Memory.get_tool (Integrator.integrate w cfg thr now m tool).2 n =
      Memory.get_tool m n) := by
  have hres : Integrator.integrate w cfg thr now m tool =
      ({ ok := false, tool_name := tool.name.getD "unnamed",
         pass_rate := (Executor.test_tool w cfg tool).1.pass_rate,
         test_results := (Executor.test_tool w cfg tool).1.results,
         error := orDefault (Executor.test_tool w cfg tool).1.error
           "did not meet pass threshold" }, m) := by
    simp [Integrator.integrate, h]
  exact ⟨by rw [hres], by rw [hres], fun n => by rw [hres]⟩

theorem C2_witness :
    (Integrator.integrate wSynBad cfg0 ((3 : ℚ)/4) "2026-01-01T00:00:00" mEmpty
      toolBadSyntax).2 = mEmpty ∧
    (Integrator.integrate wSynBad cfg0 ((3 : ℚ)/4) "2026-01-01T00:00:00" mEmpty
      toolBadSyntax).1.ok = false :=
  ⟨(C2_failed_candidate_leaves_store wSynBad cfg0 ((3 : ℚ)/4) "2026-01-01T00:00:00"
      mEmpty toolBadSyntax rfl).1,
    (C2_failed_candidate_leaves_store wSynBad cfg0 ((3 : ℚ)/4) "2026-01-01T00:00:00"
      mEmpty toolBadSyntax rfl).2.1⟩

/-- Child behaviour of a successful run returning a plain string. -/
def behPass : ProcBehavior :=
  ProcBehavior.completed
    (some { ok := true, output := PyVal.str "ok", error := Option.none }) "x" "" 0

/-- Child behaviour of a run whose harness reports a failure. -/
def behFail : ProcBehavior :=
  ProcBehavior.completed
    (some { ok := false, output := PyVal.none, error := some "boom" }) "x" "" 0

/-- Fixture world: the first two child runs succeed, the rest fail. -/
def wC3 : World :=
  { syn := fun _ => (true, Option.none),
    engine := fun i => if i < 2 then behPass else behFail,
    md5hex := fun _ => "", reprTool := fun _ => "" }

/-- Fixture test case with defaults. -/
def tcPlain : TestCase :=
  { input := [], expect_success := some true, label := Option.none }

/-- Fixture candidate with four test cases, of which exactly two pass. -/
def toolC3 : Tool :=
  { name := some "half", description := "passes half its tests", code := "c",
    func_name := "f", test_cases := [tcPlain, tcPlain, tcPlain, tcPlain],
    updated_at := Option.none }

/-- C3: the pass decision ignores the configured threshold.  With the
Integrator configured at `pass_threshold = 1/2` and a candidate passing
exactly 2 of 4 cases, the claim (and the Integrator's own docstring)
says the candidate is accepted since `pass_rate ≥ threshold`; the code
rejects it, because `Executor.test_tool` hardcodes `rate >= 0.75` and
`Integrator.pass_threshold` is only ever logged, never consulted. -/
theorem C3_configured_threshold_ignored :
    (Executor.test_tool wC3 cfg0 toolC3).1.pass_rate = 1/2 ∧
    (Executor.test_tool wC3 cfg0 toolC3).1.passed_count = some 2 ∧
    (Executor.test_tool wC3 cfg0 toolC3).1.total_count = some 4 ∧
    ((1 : ℚ)/2 ≤ (Executor.test_tool wC3 cfg0 toolC3).1.pass_rate) ∧
    (Executor.test_tool wC3 cfg0 toolC3).1.passed = false ∧
    (Integrator.integrate wC3 cfg0 ((1 : ℚ)/2) "2026-01-01T00:00:00" mEmpty
      toolC3).1.ok = false ∧
    (Integrator.integrate wC3 cfg0 ((1 : ℚ)/2) "2026-01-01T00:00:00" mEmpty
      toolC3).2 = mEmpty := by
  have hrate : (Executor.test_tool wC3 cfg0 toolC3).1.pass_rate =
      ((2 : ℕ) : ℚ) / ((4 : ℕ) : ℚ) := rfl
  have hpassed : (Executor.test_tool wC3 cfg0 toolC3).1.passed =
      decide ((3 : ℚ) / 4 ≤ ((2 : ℕ) : ℚ) / ((4 : ℕ) : ℚ)) := rfl
  have hp : (Executor.test_tool wC3 cfg0 toolC3).1.passed = false := by
    rw [hpassed]
    simp only [decide_eq_false_iff_not]
    norm_num
  have hok : (Integrator.integrate wC3 cfg0 ((1 : ℚ)/2) "2026-01-01T00:00:00" mEmpty
      toolC3).1.ok = false := by
    simp [Integrator.integrate, hp]
  have hmem : (Integrator.integrate wC3 cfg0 ((1 : ℚ)/2) "2026-01-01T00:00:00" mEmpty
      toolC3).2 = mEmpty := by
    simp [Integrator.integrate, hp]
  refine ⟨?_, rfl, rfl, ?_, hp, hok, hmem⟩
  · rw [hrate]
    norm_num
  · rw [hrate]
    norm_num

/-- C10: `save_tool` stamps the key back into the record's `name`
(the stored name, or the generated `tool_` + 10-hex-digit name when
absent) and stamps `updated_at`; the record is filed under exactly that
key, `get` immediately returns the saved record, and the
key-equals-name store invariant is preserved both by `save_tool` and by
`delete_tool`. -/
theorem C10_save_tool_key_equals_name (w : World) (now ts nm : String)
    (m : MemoryState) (tool : Tool) :
    (Memory.save_tool w now m tool).2.name = some (Memory.saveName w tool) ∧
    (Memory.save_tool w now m tool).2.updated_at = some now ∧
    (tool.name = Option.none →
      Memory.saveName w tool = "tool_" ++ (w.md5hex (w.reprTool tool)).take 10) ∧
    (∀ n0, tool.name = some n0 → Memory.saveName w tool = n0) ∧
    Memory.get_tool (Memory.save_tool w now m tool).1 (Memory.saveName w tool) =
      some (Memory.save_tool w now m tool).2 ∧
    (StoreInv m → StoreInv (Memory.save_tool w now m tool).1) ∧
    (StoreInv m → StoreInv (Memory.delete_tool ts m nm)) := by
  refine ⟨rfl, rfl, ?_, ?_, ?_, ?_, ?_⟩
  · intro h
    unfold Memory.saveName shortHash
    rw [h]
    rfl
  · intro n0 h
    unfold Memory.saveName
    rw [h]
    rfl
  · exact lookup_dictInsert (Memory.saveName w tool)
      { tool with name := some (Memory.saveName w tool), updated_at := some now }
      m.tools
  · intro hinv
    exact storeInvList_dictInsert m.tools (Memory.saveName w tool)
      { tool with name := some (Memory.saveName w tool), updated_at := some now }
      rfl hinv
  · intro hinv p hp
    unfold Memory.delete_tool at hp
    cases hl : m.tools.lookup nm with
    | none =>
      rw [hl] at hp
      exact hinv p hp
    | some t0 =>
      rw [hl] at hp
      have hp' : p ∈ m.tools.filter (fun q => !(q.1 == nm)) := hp
      exact hinv p (List.mem_filter.mp hp').1

/-- Fixture tool dict with no `name` key. -/
def toolNoName : Tool :=
  { name := Option.none, description := "d", code := "c", func_name := "f",
    test_cases := [], updated_at := Option.none }

theorem C10_witness :
    (Memory.save_tool w0 "2026-02-03T00:00:00" mEmpty toolNoName).2.name =
      some (Memory.saveName w0 toolNoName) ∧
    Memory.saveName w0 toolNoName =
      "tool_" ++ (w0.md5hex (w0.reprTool toolNoName)).take 10 ∧
    Memory.get_tool (Memory.save_tool w0 "2026-02-03T00:00:00" mEmpty toolNoName).1
        (Memory.saveName w0 toolNoName) =
      some (Memory.save_tool w0 "2026-02-03T00:00:00" mEmpty toolNoName).2 ∧
    StoreInv (Memory.save_tool w0 "2026-02-03T00:00:00" mEmpty toolNoName).1 :=
  ⟨(C10_save_tool_key_equals_name w0 "2026-02-03T00:00:00" "ts" "x" mEmpty toolNoName).1,
    (C10_save_tool_key_equals_name w0 "2026-02-03T00:00:00" "ts" "x" mEmpty
      toolNoName).2.2.1 rfl,
    (C10_save_tool_key_equals_name w0 "2026-02-03T00:00:00" "ts" "x" mEmpty
      toolNoName).2.2.2.2.1,
    (C10_save_tool_key_equals_name w0 "2026-02-03T00:00:00" "ts" "x" mEmpty
      toolNoName).2.2.2.2.2.1 (fun p hp => absurd hp (List.not_mem_nil p))⟩
